import Mathlib

/-!
Verification of the `llm-cmd` pipeline (src/llm_cmd.py): context collection
(`tail`, `shell_history_context`, `env_var_context`), prompt assembly
(`generate_context_prompt`), response sanitization (`clean_codeblock`) and the
interactive executor (`interactive_exec`), shallowly embedded in Lean.

Strings are modelled by Lean `String` (a list of characters); Python
`str.splitlines` is modelled for the newline character, which is the only line
separator the program ever produces or consumes.  File access and the
interactive prompt are effectful in the source; they are modelled by explicit
parameters (the file system as `String → Option (List String)`, the user's
interactive editing as `String → String`, the shell as `String → Nat × String`).
-/

namespace LlmCmd

/-- Python whitespace characters recognised by `str.strip()` (ASCII range). -/
def isPySpace (c : Char) : Bool :=
  c == ' ' || c == '\t' || c == '\n' || c == '\r' || c == Char.ofNat 11 || c == Char.ofNat 12

/-- Python `str.strip()`: remove leading and trailing whitespace. -/
def pyStrip (s : String) : String :=
  String.mk (((s.data.dropWhile isPySpace).reverse.dropWhile isPySpace).reverse)

/-- Helper for `splitlines`: scan the characters, accumulating the current line
(reversed); a newline emits the accumulated line, and a final non-empty
accumulator emits a last line (Python `str.splitlines` semantics: a trailing
newline does not produce a final empty line, and `"".splitlines() == []`). -/
def splitlinesAux : List Char → List Char → List String
  | [], [] => []
  | [], a :: acc => [String.mk ((a :: acc).reverse)]
  | c :: rest, acc =>
    if c = '\n' then String.mk acc.reverse :: splitlinesAux rest []
    else splitlinesAux rest (c :: acc)

/-- Python `str.splitlines()` restricted to the newline separator. -/
def splitlines (s : String) : List String :=
  splitlinesAux s.data []

/-- Python `"\n".join(lines)`. -/
def joinLines : List String → String
  | [] => ""
  | [l] => l
  | l :: ls => l ++ "\n" ++ joinLines ls

/-- Python `s.startswith(p)` with the pattern given by its characters. -/
def startsWithChars (p : List Char) (s : String) : Bool :=
  s.data.take p.length == p

/-- The triple-backtick fence marker. -/
def fenceMarker : String := "```"

/-- `line.startswith("```")` from the source. -/
def startsWithFence (s : String) : Bool := startsWithChars fenceMarker.data s

/-- `clean_codeblock` from src/llm_cmd.py: split into lines; if the first and
last lines both start with a fence marker, drop them (`lines[1:-1]`); rejoin
with newlines. -/
def clean_codeblock (text : String) : String :=
  if splitlines text ≠ [] ∧ startsWithFence (splitlines text).head!
      ∧ startsWithFence (splitlines text).getLast! then
    joinLines (((splitlines text).drop 1).dropLast)
  else
    joinLines (splitlines text)

/-- Decimal digit character for `d % 10` (Python `str(int)` rendering). -/
def digitChar (d : Nat) : Char :=
  match d % 10 with
  | 0 => '0' | 1 => '1' | 2 => '2' | 3 => '3' | 4 => '4'
  | 5 => '5' | 6 => '6' | 7 => '7' | 8 => '8' | _ => '9'

/-- Fuel-driven decimal digit list of a natural number, most significant first. -/
def natDigitsAux : Nat → Nat → List Char
  | 0, _ => []
  | fuel + 1, n =>
    if n < 10 then [digitChar n]
    else natDigitsAux fuel (n / 10) ++ [digitChar (n % 10)]

/-- Python `str(n)` for a natural number (decimal rendering, as in the
f-string `# history {N_SHELL_HISTORY_LINES}`). -/
def natToString (n : Nat) : String :=
  String.mk (natDigitsAux (n + 1) n)

/-- The default history window size from the source (`N_SHELL_HISTORY_LINES = 3`). -/
def N_SHELL_HISTORY_LINES : Nat := 3

/-- The default environment allow-list from the source (`ENV_VARS_CONTEXT`). -/
def ENV_VARS_CONTEXT : List String := ["SHELL", "USER", "HOME", "PWD"]

/-- `generate_context_prompt` from src/llm_cmd.py, parameterised by the env
lines and history lines (which the source obtains effectfully from
`env_var_context` / `shell_history_context`) and by the history window size
`n` (the source always passes the constant `N_SHELL_HISTORY_LINES`, used both
to bound the history and in the `# history {n}` header).  Mirrors the
f-string `"# env\n{env_vars}\n# history {n}\n{shell_history}\n# now: {user_prompt}".strip()`. -/
def generate_context_prompt (env_lines history_lines : List String) (n : Nat)
    (user_prompt : String) : String :=
  pyStrip ("# env\n" ++ joinLines env_lines ++ "\n# history " ++ natToString n ++ "\n"
    ++ joinLines history_lines ++ "\n# now: " ++ user_prompt)

/-- One push onto a `collections.deque` with `maxlen = n`: append on the right,
keeping only the last `n` elements. -/
def dequePush (n : Nat) (q : List String) (x : String) : List String :=
  let q2 := q ++ [x]
  q2.drop (q2.length - n)

/-- `tail` from src/llm_cmd.py: `deque(f, maxlen=n)` over the file's lines.
The file is modelled by its list of lines (iterating a Python file object
yields its lines; the line terminators are immaterial because every consumer
strips each line). -/
def tail (file_lines : List String) (n : Nat) : List String :=
  file_lines.foldl (dequePush n) []

/-- `shell_history_context` from src/llm_cmd.py, parameterised by the history
file's lines: the last `n` lines, each `str.strip()`ped. -/
def shell_history_context (n : Nat) (file_lines : List String) : List String :=
  (tail file_lines n).map pyStrip

/-- A file system: maps a path to its list of lines, or `none` when the file
cannot be opened.  `open(filename)` raising is modelled by `Except.error`. -/
def readLines (fs : String → Option (List String)) (filename : String) :
    Except String (List String) :=
  match fs filename with
  | some ls => Except.ok ls
  | none => Except.error ("cannot open " ++ filename)

/-- `tail` applied to a file on a fallible file system: `open` may fail, and
`tail` contains no handler, so the failure propagates. -/
def tailFile (fs : String → Option (List String)) (filename : String) (n : Nat) :
    Except String (List String) :=
  (readLines fs filename).map (fun ls => tail ls n)

/-- `shell_history_context` reading its file through `tail`: no `try`/`except`
anywhere on the path, so a failure from `open` propagates to the caller. -/
def shell_history_contextFile (fs : String → Option (List String)) (n : Nat)
    (filename : String) : Except String (List String) :=
  (tailFile fs filename n).map (List.map pyStrip)

/-- `env_var_context` from src/llm_cmd.py, with the process environment
modelled as a partial map from names to values (`os.environ`): the loop
appends `f"{var}={os.environ[var].strip()}"` for each allow-listed name that
is present. -/
def env_var_context (environ : String → Option String) (env_vars : List String) :
    List String :=
  env_vars.foldl
    (fun acc var =>
      match environ var with
      | some value => acc ++ [var ++ "=" ++ pyStrip value]
      | none => acc)
    []

/-- The notice printed before a multiline edit. -/
def multilineNotice : String := "Multiline command - Meta-Enter or Esc Enter to execute"

/-- The failure report printed when the executed command exits non-zero
(`except subprocess.CalledProcessError` branch). -/
def failMessage (returncode : Nat) (output : String) : String :=
  "Command failed with error (exit status " ++ natToString returncode ++ "): " ++ output

/-- Observable outcome of `interactive_exec`: the multiline notice if any, the
command string handed to the shell, and what is printed afterwards. -/
structure ExecResult where
  notice : Option String
  executed : String
  printed : String
deriving DecidableEq

/-- `interactive_exec` from src/llm_cmd.py.  The interactive prompt is
modelled by `edit : String → String` (the user freely edits the pre-filled
default and confirms); the shell by `sh : String → Nat × String` (exit status
and combined stdout/stderr).  Both branches of the source pre-fill the prompt
with `command` and execute only the edited text; `subprocess.check_output`
raising `CalledProcessError` on non-zero status is modelled by the status
component, and the `except` handler prints the failure message. -/
def interactive_exec (edit : String → String) (sh : String → Nat × String)
    (command : String) : ExecResult :=
  let notice := if '\n' ∈ command.data then some multilineNotice else none
  let edited_command := edit command
  let r := sh edited_command
  let printed := if r.1 = 0 then r.2 else failMessage r.1 r.2
  { notice := notice, executed := edited_command, printed := printed }

/-- Split a character list at every newline, keeping all segments including a
final empty one.  This is what the middle of a fenced block contributes when
the surrounding fence lines delimit it on both sides. -/
def splitAllAux : List Char → List Char → List String
  | [], acc => [String.mk acc.reverse]
  | c :: rest, acc =>
    if c = '\n' then String.mk acc.reverse :: splitAllAux rest []
    else splitAllAux rest (c :: acc)

/-- `s` ends in a Python whitespace character. -/
def endsInPySpace (s : String) : Bool :=
  match s.data.getLast? with
  | some c => isPySpace c
  | none => false

/-- The lines a block contributes to the prompt.  An empty block's
`"\n".join([]) == ""` shows up as one empty line between the surrounding
headers, so an empty block contributes `[""]`, not `[]`. -/
def blockLines (l : List String) : List String :=
  if l = [] then [""] else l

example : splitlines "" = [] := by decide
example : splitlines "a" = ["a"] := by decide
example : splitlines "a\n" = ["a"] := by decide
example : splitlines "a\nb" = ["a", "b"] := by decide
example : splitlines "\n" = [""] := by decide
example : splitlines "\n\n" = ["", ""] := by decide
example : clean_codeblock "```\nls -la\n```" = "ls -la" := by decide
example : clean_codeblock "```" = "" := by decide
example : clean_codeblock "ls -la" = "ls -la" := by decide
example : clean_codeblock "```bash\necho hi\n```" = "echo hi" := by decide
example : natToString 3 = "3" := by decide
example : natToString 42 = "42" := by decide
example : natToString 0 = "0" := by decide
example : shell_history_context 3 ["a", "b", "c", "d", "e"] = ["c", "d", "e"] := by decide
example : shell_history_context 0 ["a", "b"] = [] := by decide
example : shell_history_context 5 ["a"] = ["a"] := by decide
example :
    generate_context_prompt ["USER=alice"] ["cd /tmp"] 1 "list files"
      = "# env\nUSER=alice\n# history 1\ncd /tmp\n# now: list files" := by decide
example :
    generate_context_prompt [] ["a"] 3 "x" = "# env\n\n# history 3\na\n# now: x" := by decide
example :
    env_var_context (fun k => if k = "USER" then some " alice " else none) ["SHELL", "USER"]
      = ["USER=alice"] := by decide
example :
    (interactive_exec (fun s => s) (fun _ => (1, "oops")) "exit 1").printed
      = "Command failed with error (exit status 1): oops" := by decide

/-! ## Basic string and line lemmas -/

theorem mk_data (s : String) : String.mk s.data = s := by
  cases s
  rfl

theorem data_nil_iff (s : String) : s.data = [] ↔ s = "" := by
  constructor
  · intro h
    have := mk_data s
    rw [h] at this
    exact this.symm
  · intro h
    subst h
    rfl

theorem joinLines_cons (l : String) (ls : List String) (h : ls ≠ []) :
    joinLines (l :: ls) = l ++ "\n" ++ joinLines ls := by
  cases ls with
  | nil => simp at h
  | cons y ys => rfl

theorem joinLines_append (a b : List String) (ha : a ≠ []) (hb : b ≠ []) :
    joinLines (a ++ b) = joinLines a ++ "\n" ++ joinLines b := by
  induction a with
  | nil => exact absurd rfl ha
  | cons x xs ih =>
    cases xs with
    | nil =>
      simp only [List.singleton_append]
      rw [joinLines_cons x b hb]
      rfl
    | cons y ys =>
      have hxs : (y :: ys : List String) ≠ [] := by simp
      have hab : (y :: ys ++ b : List String) ≠ [] := by simp
      rw [List.cons_append, joinLines_cons x (y :: ys ++ b) hab,
        joinLines_cons x (y :: ys) hxs, ih hxs]
      simp [String.append_assoc]

theorem splitlinesAux_newline (xs : List Char) (rest : List Char) :
    ∀ acc, (∀ c ∈ xs, c ≠ '\n') →
      splitlinesAux (xs ++ '\n' :: rest) acc
        = String.mk (acc.reverse ++ xs) :: splitlinesAux rest [] := by
  induction xs with
  | nil =>
    intro acc _
    simp [splitlinesAux]
  | cons c cs ih =>
    intro acc h
    have hc : c ≠ '\n' := h c (by simp)
    have hcs : ∀ x ∈ cs, x ≠ '\n' := fun x hx => h x (by simp [hx])
    simp only [List.cons_append, splitlinesAux, if_neg hc]
    have h2 := ih (c :: acc) hcs
    simp only [List.reverse_cons, List.append_assoc, List.singleton_append] at h2
    exact h2

theorem splitlinesAux_final (xs : List Char) :
    ∀ acc, (∀ c ∈ xs, c ≠ '\n') → (acc ≠ [] ∨ xs ≠ []) →
      splitlinesAux xs acc = [String.mk (acc.reverse ++ xs)] := by
  induction xs with
  | nil =>
    intro acc _ hne
    rcases hne with hne | hne
    · cases acc with
      | nil => exact absurd rfl hne
      | cons a as => simp [splitlinesAux]
    · exact absurd rfl hne
  | cons c cs ih =>
    intro acc h _
    have hc : c ≠ '\n' := h c (by simp)
    have hcs : ∀ x ∈ cs, x ≠ '\n' := fun x hx => h x (by simp [hx])
    simp only [splitlinesAux, if_neg hc]
    rw [ih (c :: acc) hcs (Or.inl (by simp))]
    simp

/-- A string with no newline and joined on the right by a newline-joined block
splits back into itself followed by the block's lines. -/
theorem splitlines_join_concat (ls : List String) (last : String)
    (hls : ∀ l ∈ ls, ∀ c ∈ l.data, c ≠ '\n')
    (hlast : ∀ c ∈ last.data, c ≠ '\n') (hne : last ≠ "") :
    splitlines (joinLines (ls ++ [last])) = ls ++ [last] := by
  induction ls with
  | nil =>
    simp only [List.nil_append]
    have hdata : last.data ≠ [] := fun h => hne ((data_nil_iff last).mp h)
    have hj : joinLines [last] = last := rfl
    unfold splitlines
    rw [hj, splitlinesAux_final last.data [] hlast (Or.inr hdata)]
    simp [mk_data]
  | cons x xs ih =>
    have hx : ∀ c ∈ x.data, c ≠ '\n' := hls x (by simp)
    have hxs : ∀ l ∈ xs, ∀ c ∈ l.data, c ≠ '\n' := fun l hl => hls l (by simp [hl])
    have hrest : (xs ++ [last] : List String) ≠ [] := by simp
    rw [List.cons_append, joinLines_cons x (xs ++ [last]) hrest]
    unfold splitlines
    have hdata : (x ++ "\n" ++ joinLines (xs ++ [last])).data
        = x.data ++ '\n' :: (joinLines (xs ++ [last])).data := by
      simp [String.data_append]
    rw [hdata, splitlinesAux_newline x.data _ [] hx]
    simp only [List.reverse_nil, List.nil_append, mk_data]
    rw [show splitlinesAux (joinLines (xs ++ [last])).data []
          = splitlines (joinLines (xs ++ [last])) from rfl, ih hxs]

/-! ## Full splitting (every newline-delimited segment, used for the
fence round-trip) -/

theorem splitAllAux_ne_nil (ys : List Char) (acc : List Char) :
    splitAllAux ys acc ≠ [] := by
  induction ys generalizing acc with
  | nil => simp [splitAllAux]
  | cons c rest ih =>
    simp only [splitAllAux]
    by_cases hc : c = '\n'
    · simp [hc]
    · simp only [if_neg hc]
      exact ih (c :: acc)

theorem splitlinesAux_fence_tail (ys : List Char) :
    ∀ acc, splitlinesAux (ys ++ '\n' :: fenceMarker.data) acc
      = splitAllAux ys acc ++ [fenceMarker] := by
  induction ys with
  | nil =>
    intro acc
    simp [splitlinesAux, splitAllAux, fenceMarker]
  | cons c rest ih =>
    intro acc
    by_cases hc : c = '\n'
    · subst hc
      have e1 : splitlinesAux (('\n' :: rest) ++ '\n' :: fenceMarker.data) acc
          = String.mk acc.reverse :: splitlinesAux (rest ++ '\n' :: fenceMarker.data) [] := rfl
      have e2 : splitAllAux ('\n' :: rest) acc
          = String.mk acc.reverse :: splitAllAux rest [] := rfl
      rw [e1, e2, ih []]
      simp
    · simp only [List.cons_append, splitlinesAux, splitAllAux, if_neg hc]
      exact ih (c :: acc)

theorem joinLines_splitAllAux (ys : List Char) :
    ∀ acc, joinLines (splitAllAux ys acc) = String.mk (acc.reverse ++ ys) := by
  induction ys with
  | nil =>
    intro acc
    simp [splitAllAux, joinLines]
  | cons c rest ih =>
    intro acc
    by_cases hc : c = '\n'
    · subst hc
      have e2 : splitAllAux ('\n' :: rest) acc
          = String.mk acc.reverse :: splitAllAux rest [] := rfl
      rw [e2, joinLines_cons _ _ (splitAllAux_ne_nil rest []), ih []]
      apply String.ext
      simp [String.data_append]
    · simp only [splitAllAux, if_neg hc]
      rw [ih (c :: acc)]
      simp

/-! ## `pyStrip` lemmas -/

theorem dropWhile_of_head_neg {p : Char → Bool} {c : Char} {t : List Char}
    (hc : p c = false) : (c :: t).dropWhile p = c :: t := by
  simp [List.dropWhile_cons, hc]

theorem pyStrip_eq_self (s : String) (c d : Char) (t : List Char)
    (hdata : s.data = c :: t) (hlast : s.data.getLast? = some d)
    (hc : isPySpace c = false) (hd : isPySpace d = false) : pyStrip s = s := by
  unfold pyStrip
  rw [hdata]
  rw [dropWhile_of_head_neg hc]
  have hrev : (c :: t).reverse.head? = some d := by
    rw [List.head?_reverse]
    rw [hdata] at hlast
    exact hlast
  obtain ⟨e, r, hr⟩ : ∃ e r, (c :: t).reverse = e :: r := by
    cases hrw : (c :: t).reverse with
    | nil => rw [hrw] at hrev; simp at hrev
    | cons e r => exact ⟨e, r, rfl⟩
  rw [hr] at hrev
  have he : e = d := by simpa using hrev
  subst he
  rw [hr, dropWhile_of_head_neg hd, ← hr, List.reverse_reverse, ← hdata, mk_data]

theorem pyStrip_of_all_space (s : String) (h : ∀ c ∈ s.data, isPySpace c = true) :
    pyStrip s = "" := by
  unfold pyStrip
  have h1 : s.data.dropWhile isPySpace = [] := List.dropWhile_eq_nil_iff.mpr h
  rw [h1]
  rfl

/-! ## Decimal rendering lemmas -/

theorem digitChar_not_space (d : Nat) : isPySpace (digitChar d) = false := by
  unfold digitChar
  split <;> decide

theorem natDigitsAux_chars (fuel : Nat) :
    ∀ n c, c ∈ natDigitsAux fuel n → isPySpace c = false := by
  induction fuel with
  | zero =>
    intro n c hc
    simp [natDigitsAux] at hc
  | succ fuel ih =>
    intro n c hc
    simp only [natDigitsAux] at hc
    by_cases hn : n < 10
    · rw [if_pos hn] at hc
      simp at hc
      rw [hc]
      exact digitChar_not_space n
    · rw [if_neg hn] at hc
      rw [List.mem_append] at hc
      rcases hc with hc | hc
      · exact ih (n / 10) c hc
      · simp at hc
        rw [hc]
        exact digitChar_not_space (n % 10)

theorem natToString_chars (n : Nat) : ∀ c ∈ (natToString n).data, isPySpace c = false :=
  fun c hc => natDigitsAux_chars (n + 1) n c hc

theorem natToString_no_newline (n : Nat) : ∀ c ∈ (natToString n).data, c ≠ '\n' := by
  intro c hc he
  have h1 := natToString_chars n c hc
  rw [he] at h1
  simp [isPySpace] at h1

/-! ## `tail` characterization -/

theorem dequePush_length (n : Nat) (q : List String) (x : String) :
    (dequePush n q x).length = min (q.length + 1) n := by
  simp only [dequePush, List.length_drop, List.length_append, List.length_cons,
    List.length_nil]
  omega

theorem foldl_dequePush (n : Nat) (xs : List String) :
    ∀ q : List String, q.length ≤ n →
      xs.foldl (dequePush n) q = (q ++ xs).drop ((q ++ xs).length - n) := by
  induction xs with
  | nil =>
    intro q hq
    simp only [List.foldl_nil, List.append_nil]
    rw [show q.length - n = 0 by omega]
    simp
  | cons x xs ih =>
    intro q hq
    have hlen : (dequePush n q x).length ≤ n := by
      rw [dequePush_length]
      omega
    rw [List.foldl_cons, ih (dequePush n q x) hlen]
    have hd : q.length + 1 - n ≤ (q ++ [x]).length := by
      simp only [List.length_append, List.length_cons]
      omega
    have hpush : dequePush n q x = (q ++ [x]).drop (q.length + 1 - n) := by
      simp [dequePush]
    rw [hpush, ← List.drop_append_of_le_length hd, List.drop_drop]
    have harith :
        q.length + 1 - n
            + ((List.drop (q.length + 1 - n) (q ++ [x] ++ xs)).length - n)
          = (q ++ x :: xs).length - n := by
      simp only [List.length_append, List.length_drop, List.length_cons,
        List.length_nil]
      omega
    rw [harith]
    congr 1
    simp

theorem tail_eq_drop (file_lines : List String) (n : Nat) :
    tail file_lines n = file_lines.drop (file_lines.length - n) := by
  unfold tail
  rw [foldl_dequePush n file_lines [] (by simp)]
  simp

theorem tail_length (file_lines : List String) (n : Nat) :
    (tail file_lines n).length = min n file_lines.length := by
  rw [tail_eq_drop]
  simp only [List.length_drop]
  omega

/-! ## `env_var_context` characterization -/

theorem env_var_context_foldl (environ : String → Option String) (env_vars : List String) :
    ∀ acc : List String,
      env_vars.foldl
        (fun acc var =>
          match environ var with
          | some value => acc ++ [var ++ "=" ++ pyStrip value]
          | none => acc)
        acc
      = acc ++ env_vars.filterMap
          (fun var => (environ var).map (fun value => var ++ "=" ++ pyStrip value)) := by
  induction env_vars with
  | nil =>
    intro acc
    simp
  | cons v vs ih =>
    intro acc
    rw [List.foldl_cons, List.filterMap_cons]
    cases he : environ v with
    | none =>
      simp only [he, Option.map_none]
      exact ih acc
    | some value =>
      simp only [he, Option.map_some]
      rw [ih (acc ++ [v ++ "=" ++ pyStrip value])]
      simp

/-! ## Prompt characterization -/

theorem blockLines_ne_nil (l : List String) : blockLines l ≠ [] := by
  unfold blockLines
  split
  · simp
  · rename_i h
    exact h

theorem joinLines_blockLines (l : List String) :
    joinLines (blockLines l) = joinLines l := by
  unfold blockLines
  split
  · rename_i h
    subst h
    rfl
  · rfl

theorem blockLines_no_newline (l : List String) (h : ∀ s ∈ l, ∀ c ∈ s.data, c ≠ '\n') :
    ∀ s ∈ blockLines l, ∀ c ∈ s.data, c ≠ '\n' := by
  unfold blockLines
  split
  · intro s hs c hc
    simp at hs
    subst hs
    simp at hc
  · exact h

theorem joinLines_three (A B : List String) (now : String) (hA : A ≠ []) (hB : B ≠ []) :
    joinLines (A ++ B ++ [now]) = joinLines A ++ "\n" ++ joinLines B ++ "\n" ++ now := by
  rw [joinLines_append (A ++ B) [now] (by simp [hA]) (by simp)]
  rw [joinLines_append A B hA hB]
  rw [show joinLines [now] = now from rfl]

theorem prompt_inner_eq (env_lines history_lines : List String) (n : Nat) (instr : String) :
    "# env\n" ++ joinLines env_lines ++ "\n# history " ++ natToString n ++ "\n"
        ++ joinLines history_lines ++ "\n# now: " ++ instr
      = joinLines (("# env" :: blockLines env_lines)
          ++ (("# history " ++ natToString n) :: blockLines history_lines)
          ++ ["# now: " ++ instr]) := by
  rw [joinLines_three _ _ _ (by simp) (by simp)]
  rw [joinLines_cons _ _ (blockLines_ne_nil env_lines)]
  rw [joinLines_cons _ _ (blockLines_ne_nil history_lines)]
  rw [joinLines_blockLines, joinLines_blockLines]
  have e1 : ("# env\n" : String).data = ['#', ' ', 'e', 'n', 'v', '\n'] := rfl
  have e2 : ("\n# history " : String).data
      = ['\n', '#', ' ', 'h', 'i', 's', 't', 'o', 'r', 'y', ' '] := rfl
  have e3 : ("\n" : String).data = ['\n'] := rfl
  have e4 : ("\n# now: " : String).data = ['\n', '#', ' ', 'n', 'o', 'w', ':', ' '] := rfl
  have e5 : ("# env" : String).data = ['#', ' ', 'e', 'n', 'v'] := rfl
  have e6 : ("# history " : String).data = ['#', ' ', 'h', 'i', 's', 't', 'o', 'r', 'y', ' '] := rfl
  have e7 : ("# now: " : String).data = ['#', ' ', 'n', 'o', 'w', ':', ' '] := rfl
  apply String.ext
  simp only [String.data_append, List.append_assoc, e1, e2, e3, e4, e5, e6, e7,
    List.cons_append, List.nil_append]

theorem pyStrip_head_last (s : String) (hh : s.data.head? = some '#')
    (hl : ∃ d, s.data.getLast? = some d ∧ isPySpace d = false) : pyStrip s = s := by
  obtain ⟨d, hld, hdns⟩ := hl
  cases hdd : s.data with
  | nil =>
    rw [hdd] at hh
    simp at hh
  | cons c t =>
    rw [hdd] at hh
    simp at hh
    subst hh
    exact pyStrip_eq_self s '#' d t hdd hld (by decide) hdns

theorem prompt_eq_joinLines (env_lines history_lines : List String) (n : Nat)
    (instr : String) (hne : instr ≠ "") (hsp : endsInPySpace instr = false) :
    generate_context_prompt env_lines history_lines n instr
      = joinLines (("# env" :: blockLines env_lines)
          ++ (("# history " ++ natToString n) :: blockLines history_lines)
          ++ ["# now: " ++ instr]) := by
  have hid : instr.data ≠ [] := fun h => hne ((data_nil_iff instr).mp h)
  obtain ⟨d, hgl, hdns⟩ : ∃ d, instr.data.getLast? = some d ∧ isPySpace d = false := by
    cases hgl : instr.data.getLast? with
    | none => exact absurd (List.getLast?_eq_none_iff.mp hgl) hid
    | some d =>
      refine ⟨d, rfl, ?_⟩
      unfold endsInPySpace at hsp
      rw [hgl] at hsp
      exact hsp
  have e1 : ("# env\n" : String).data = ['#', ' ', 'e', 'n', 'v', '\n'] := rfl
  have hhead : ("# env\n" ++ joinLines env_lines ++ "\n# history " ++ natToString n ++ "\n"
      ++ joinLines history_lines ++ "\n# now: " ++ instr).data.head? = some '#' := by
    simp [String.data_append, e1]
  have hlast : ("# env\n" ++ joinLines env_lines ++ "\n# history " ++ natToString n ++ "\n"
      ++ joinLines history_lines ++ "\n# now: " ++ instr).data.getLast? = some d := by
    rw [String.data_append, List.getLast?_append, hgl]
    rfl
  unfold generate_context_prompt
  rw [pyStrip_head_last _ hhead ⟨d, hlast, hdns⟩]
  rw [prompt_inner_eq]

theorem prompt_lines (env_lines history_lines : List String) (n : Nat) (instr : String)
    (henv : ∀ l ∈ env_lines, ∀ c ∈ l.data, c ≠ '\n')
    (hhist : ∀ l ∈ history_lines, ∀ c ∈ l.data, c ≠ '\n')
    (hinstr : ∀ c ∈ instr.data, c ≠ '\n')
    (hne : instr ≠ "") (hsp : endsInPySpace instr = false) :
    splitlines (generate_context_prompt env_lines history_lines n instr)
      = ("# env" :: blockLines env_lines)
          ++ (("# history " ++ natToString n) :: blockLines history_lines)
          ++ ["# now: " ++ instr] := by
  rw [prompt_eq_joinLines env_lines history_lines n instr hne hsp]
  apply splitlines_join_concat
  · intro l hl
    rcases List.mem_append.mp hl with hl | hl
    · rcases List.mem_cons.mp hl with hl | hl
      · subst hl
        decide
      · exact blockLines_no_newline env_lines henv l hl
    · rcases List.mem_cons.mp hl with hl | hl
      · subst hl
        intro c hc
        rw [String.data_append] at hc
        rcases List.mem_append.mp hc with h | h
        · revert h
          have : ∀ c ∈ (("# history " : String)).data, c ≠ '\n' := by decide
          exact this c
        · exact natToString_no_newline n c h
      · exact blockLines_no_newline history_lines hhist l hl
  · intro c hc
    rw [String.data_append] at hc
    rcases List.mem_append.mp hc with h | h
    · revert h
      have : ∀ c ∈ (("# now: " : String)).data, c ≠ '\n' := by decide
      exact this c
    · exact hinstr c h
  · intro h
    have h2 : ("# now: " ++ instr).data = [] := by
      rw [h]
    rw [String.data_append] at h2
    exact absurd (List.append_eq_nil.mp h2).1 (by decide)

/-! ## Marker lines -/

/-- Claim C1: for every sanitized command, `interactive_exec` executes exactly
the text returned by the interactive editable prompt (pre-filled with the
candidate command), never the unedited candidate automatically: whenever the
user's confirmed edit differs from the candidate, the executed text differs
from the candidate, so no command reaches the shell without passing through
the editable confirmation step. -/
theorem C1_exec_edited_only (edit : String → String) (sh : String → Nat × String)
    (command : String) :
    (interactive_exec edit sh command).executed = edit command
      ∧ (edit command ≠ command → (interactive_exec edit sh command).executed ≠ command) := by
  refine ⟨rfl, ?_⟩
  intro h
  exact h

/-- Witness for C1: a concrete edit that replaces the candidate; the executed
command is the edited text, not the candidate. -/
theorem C1_exec_edited_only_witness :
    ((fun _ : String => "ls -l") "rm -rf /" ≠ "rm -rf /")
      ∧ (interactive_exec (fun _ => "ls -l") (fun _ => (0, "")) "rm -rf /").executed
          ≠ "rm -rf /" :=
  ⟨by decide,
   (C1_exec_edited_only (fun _ => "ls -l") (fun _ => (0, "")) "rm -rf /").2 (by decide)⟩

/-- Claim C2: `clean_codeblock` splits the text into lines; if the first and
last lines both start with a fence marker it removes exactly those two lines
and rejoins the rest with newlines; otherwise it returns the newline-rejoin
of the original lines; and the single-line fence-only input collapses to the
empty string. -/
theorem C2_clean_codeblock_cases (text : String) :
    (splitlines text ≠ []
        → startsWithFence (splitlines text).head! = true
        → startsWithFence (splitlines text).getLast! = true
        → clean_codeblock text = joinLines (((splitlines text).drop 1).dropLast))
      ∧ ((splitlines text = [] ∨ startsWithFence (splitlines text).head! = false
            ∨ startsWithFence (splitlines text).getLast! = false)
          → clean_codeblock text = joinLines (splitlines text))
      ∧ clean_codeblock "```" = "" := by
  refine ⟨?_, ?_, by decide⟩
  · intro h1 h2 h3
    unfold clean_codeblock
    rw [if_pos ⟨h1, h2, h3⟩]
  · intro h
    have hneg : ¬(splitlines text ≠ [] ∧ startsWithFence (splitlines text).head!
        ∧ startsWithFence (splitlines text).getLast!) := by
      intro hcond
      obtain ⟨hc1, hc2, hc3⟩ := hcond
      rcases h with h | h | h
      · exact hc1 h
      · rw [h] at hc2
        simp at hc2
      · rw [h] at hc3
        simp at hc3
    unfold clean_codeblock
    rw [if_neg hneg]

/-- Witness for C2: both branches at concrete inputs. -/
theorem C2_clean_codeblock_cases_witness :
    clean_codeblock "```\nls -la\n```" = joinLines (((splitlines "```\nls -la\n```").drop 1).dropLast)
      ∧ clean_codeblock "ls -la" = joinLines (splitlines "ls -la") :=
  ⟨(C2_clean_codeblock_cases "```\nls -la\n```").1 (by decide) (by decide) (by decide),
   (C2_clean_codeblock_cases "ls -la").2.1 (Or.inr (Or.inl (by decide)))⟩

/-- Claim C4: `shell_history_context` returns exactly `min n m` lines — the
trailing lines of the file in their original oldest-first order, each
stripped of surrounding whitespace — including the spec's scenario
`a,b,c,d,e` with `n = 3` giving `[c,d,e]`. -/
theorem C4_shell_history_context_tail (n : Nat) (file_lines : List String) :
    shell_history_context n file_lines
        = (file_lines.drop (file_lines.length - n)).map pyStrip
      ∧ (shell_history_context n file_lines).length = min n file_lines.length
      ∧ shell_history_context 3 ["a", "b", "c", "d", "e"] = ["c", "d", "e"] := by
  refine ⟨?_, ?_, by decide⟩
  · unfold shell_history_context
    rw [tail_eq_drop]
  · unfold shell_history_context
    rw [List.length_map, tail_length]

/-- Claim C5: `env_var_context` emits one `NAME=value` entry (value stripped)
per allow-listed name present in the environment, in input order, and every
entry comes from a present name (no entry for an absent name); it is a total
function with no failure mode. -/
theorem C5_env_var_context_filterMap (environ : String → Option String)
    (env_vars : List String) :
    env_var_context environ env_vars
        = env_vars.filterMap
            (fun var => (environ var).map (fun value => var ++ "=" ++ pyStrip value))
      ∧ ∀ s ∈ env_var_context environ env_vars,
          ∃ var ∈ env_vars, ∃ value, environ var = some value
            ∧ s = var ++ "=" ++ pyStrip value := by
  have he : env_var_context environ env_vars
      = env_vars.filterMap
          (fun var => (environ var).map (fun value => var ++ "=" ++ pyStrip value)) := by
    unfold env_var_context
    rw [env_var_context_foldl]
    simp
  refine ⟨he, ?_⟩
  intro s hs
  rw [he] at hs
  rw [List.mem_filterMap] at hs
  obtain ⟨var, hvar, hmap⟩ := hs
  cases hv : environ var with
  | none =>
    rw [hv] at hmap
    simp at hmap
  | some value =>
    rw [hv] at hmap
    simp at hmap
    exact ⟨var, hvar, value, hv, hmap.symm⟩

/-- Claim C6: when the executed command exits non-zero, the executor prints
the failure message containing the exit status and the captured combined
output, and returns normally (the `CalledProcessError` is caught, never
re-raised: `interactive_exec` is a total function). -/
theorem C6_failure_reported (edit : String → String) (sh : String → Nat × String)
    (command : String) (h : (sh (edit command)).1 ≠ 0) :
    (interactive_exec edit sh command).printed
      = failMessage (sh (edit command)).1 (sh (edit command)).2 := by
  unfold interactive_exec
  simp only []
  rw [if_neg h]

/-- Witness for C6: command exiting with status 1 and empty captured output. -/
theorem C6_failure_reported_witness :
    ((fun _ : String => ((1 : Nat), "")) ((fun s : String => s) "exit 1")).1 ≠ 0
      ∧ (interactive_exec (fun s => s) (fun _ => (1, "")) "exit 1").printed
          = "Command failed with error (exit status 1): " := by
  refine ⟨by decide, ?_⟩
  rw [C6_failure_reported (fun s => s) (fun _ => (1, "")) "exit 1" (by decide)]
  decide

/-- Claim C7: when the history file cannot be opened, the failure propagates
through `tail` and `shell_history_context` uncaught — the result is the
file-access error, never a silently empty (or any other) history list. -/
theorem C7_history_error_propagates (fs : String → Option (List String)) (n : Nat)
    (filename : String) (h : fs filename = none) :
    shell_history_contextFile fs n filename = Except.error ("cannot open " ++ filename)
      ∧ ∀ ls : List String, shell_history_contextFile fs n filename ≠ Except.ok ls := by
  have he : shell_history_contextFile fs n filename
      = Except.error ("cannot open " ++ filename) := by
    unfold shell_history_contextFile tailFile readLines
    rw [h]
    rfl
  refine ⟨he, ?_⟩
  intro ls hok
  rw [he] at hok
  exact Except.noConfusion hok

/-- Witness for C7: an unreadable history file path. -/
theorem C7_history_error_propagates_witness :
    (fun _ : String => (none : Option (List String))) ".bash_history" = none
      ∧ shell_history_contextFile (fun _ => none) 3 ".bash_history"
          = Except.error ("cannot open " ++ ".bash_history") :=
  ⟨rfl, (C7_history_error_propagates (fun _ => none) 3 ".bash_history" rfl).1⟩

/-- Claim C10: inclusion in `env_var_context` is decided by presence of the
name, not by the value being non-empty — a name bound to a whitespace-only
(or empty) value still contributes the entry `NAME=` (value stripped to
nothing); the name itself is never trimmed. -/
theorem C10_empty_value_included (environ : String → Option String)
    (env_vars : List String) (name value : String)
    (hset : environ name = some value) (hspace : ∀ c ∈ value.data, isPySpace c = true)
    (hmem : name ∈ env_vars) :
    (name ++ "=") ∈ env_var_context environ env_vars := by
  have hstrip : pyStrip value = "" := pyStrip_of_all_space value hspace
  unfold env_var_context
  rw [env_var_context_foldl]
  simp only [List.nil_append]
  rw [List.mem_filterMap]
  refine ⟨name, hmem, ?_⟩
  rw [hset]
  show some (name ++ "=" ++ pyStrip value) = some (name ++ "=")
  rw [hstrip]
  have hap : (name ++ "=") ++ "" = name ++ "=" := by
    apply String.ext
    simp [String.data_append]
  rw [hap]

/-- Counterexample to claim C3 as stated: with an empty env block the `# env`
header is followed by a blank line (the empty `"\n".join([])` between two
newlines), not directly by the next header, so the sections are not separated
by single newlines and the empty block does not contribute "a header line
with no body lines". -/
theorem C3_counterexample :
    generate_context_prompt [] ["a"] 3 "x" = "# env\n\n# history 3\na\n# now: x"
      ∧ generate_context_prompt [] ["a"] 3 "x" ≠ "# env\n# history 3\na\n# now: x"
      ∧ splitlines (generate_context_prompt [] ["a"] 3 "x")
          = ["# env", "", "# history 3", "a", "# now: x"] := by
  refine ⟨by decide, by decide, by decide⟩

/-- Claim C3 (amended): for env/history lines and an instruction free of
newlines, with the instruction nonempty and not ending in whitespace, the
prompt is the newline-join of: the `# env` header, the env block, the
`# history n` header, the history block, and the `# now: <instruction>` line
— where a non-empty block contributes its lines and an empty block
contributes one blank line (not zero lines) after its header. -/
theorem C3_prompt_sections (env_lines history_lines : List String) (n : Nat)
    (instr : String)
    (henv : ∀ l ∈ env_lines, ∀ c ∈ l.data, c ≠ '\n')
    (hhist : ∀ l ∈ history_lines, ∀ c ∈ l.data, c ≠ '\n')
    (hinstr : ∀ c ∈ instr.data, c ≠ '\n')
    (hne : instr ≠ "") (hsp : endsInPySpace instr = false) :
    splitlines (generate_context_prompt env_lines history_lines n instr)
        = ("# env" :: blockLines env_lines)
            ++ (("# history " ++ natToString n) :: blockLines history_lines)
            ++ ["# now: " ++ instr]
      ∧ generate_context_prompt env_lines history_lines n instr
          = joinLines (("# env" :: blockLines env_lines)
              ++ (("# history " ++ natToString n) :: blockLines history_lines)
              ++ ["# now: " ++ instr]) :=
  ⟨prompt_lines env_lines history_lines n instr henv hhist hinstr hne hsp,
   prompt_eq_joinLines env_lines history_lines n instr hne hsp⟩

/-- Witness for C3 at the spec's scenario. -/
theorem C3_prompt_sections_witness :
    splitlines (generate_context_prompt ["USER=alice"] ["cd /tmp"] 1 "list files")
        = ["# env", "USER=alice", "# history 1", "cd /tmp", "# now: list files"]
      ∧ generate_context_prompt ["USER=alice"] ["cd /tmp"] 1 "list files"
          = "# env\nUSER=alice\n# history 1\ncd /tmp\n# now: list files" := by
  have h := C3_prompt_sections ["USER=alice"] ["cd /tmp"] 1 "list files"
    (by decide) (by decide) (by decide) (by decide) (by decide)
  constructor
  · rw [h.1]
    decide
  · rw [h.2]
    decide

/-- Claim C8: round-trip — for a non-empty list of body lines none of which
starts with a fence marker, sanitizing the newline-join of the fence-wrapped
lines recovers exactly the newline-join of the body lines. -/
theorem C8_roundtrip (L : List String) (hne : L ≠ [])
    (hnf : ∀ l ∈ L, startsWithFence l = false) :
    clean_codeblock (joinLines (fenceMarker :: L ++ [fenceMarker])) = joinLines L := by
  have hjoin : joinLines (fenceMarker :: L ++ [fenceMarker])
      = fenceMarker ++ "\n" ++ joinLines L ++ "\n" ++ fenceMarker := by
    rw [joinLines_append (fenceMarker :: L) [fenceMarker] (by simp) (by simp)]
    rw [joinLines_cons fenceMarker L hne]
    rw [show joinLines [fenceMarker] = fenceMarker from rfl]
  have hdata : (fenceMarker ++ "\n" ++ joinLines L ++ "\n" ++ fenceMarker).data
      = fenceMarker.data ++ '\n' :: ((joinLines L).data ++ '\n' :: fenceMarker.data) := by
    simp [String.data_append]
  have hsplit : splitlines (joinLines (fenceMarker :: L ++ [fenceMarker]))
      = fenceMarker :: (splitAllAux (joinLines L).data [] ++ [fenceMarker]) := by
    rw [hjoin]
    unfold splitlines
    rw [hdata]
    rw [splitlinesAux_newline fenceMarker.data _ [] (by decide)]
    rw [splitlinesAux_fence_tail]
    simp [mk_data]
  have hhead : startsWithFence (splitlines
      (joinLines (fenceMarker :: L ++ [fenceMarker]))).head! = true := by
    rw [hsplit]
    rw [show (fenceMarker :: (splitAllAux (joinLines L).data []
      ++ [fenceMarker])).head! = fenceMarker from rfl]
    decide
  have hgl : (fenceMarker :: (splitAllAux (joinLines L).data []
      ++ [fenceMarker])).getLast? = some fenceMarker := by
    rw [show fenceMarker :: (splitAllAux (joinLines L).data [] ++ [fenceMarker])
        = (fenceMarker :: splitAllAux (joinLines L).data []) ++ [fenceMarker] from rfl]
    exact List.getLast?_concat _
  have hlast : startsWithFence (splitlines
      (joinLines (fenceMarker :: L ++ [fenceMarker]))).getLast! = true := by
    rw [hsplit]
    rw [List.getLast!_of_getLast? hgl]
    decide
  have hnn : splitlines (joinLines (fenceMarker :: L ++ [fenceMarker])) ≠ [] := by
    rw [hsplit]
    simp
  unfold clean_codeblock
  rw [if_pos ⟨hnn, hhead, hlast⟩]
  rw [hsplit]
  simp only [List.drop_one, List.tail_cons, List.dropLast_concat]
  rw [joinLines_splitAllAux]
  simp [mk_data]

/-- Witness for C8 at a concrete body. -/
theorem C8_roundtrip_witness :
    (["echo hi", ""] : List String) ≠ []
      ∧ clean_codeblock (joinLines (fenceMarker :: ["echo hi", ""] ++ [fenceMarker]))
          = joinLines ["echo hi", ""] :=
  ⟨by decide, C8_roundtrip ["echo hi", ""] (by decide) (by decide)⟩

/-- Witness for C10: a name containing spaces (kept verbatim) bound to a
whitespace-only value yields exactly `NAME=`. -/
theorem C10_empty_value_included_witness :
    (fun k : String => if k = " X " then some "  " else none) " X " = some "  "
      ∧ (∀ c ∈ ("  " : String).data, isPySpace c = true)
      ∧ (" X " ∈ (["A", " X "] : List String))
      ∧ (" X " ++ "=")
          ∈ env_var_context (fun k => if k = " X " then some "  " else none) ["A", " X "] :=
  ⟨by decide, by decide, by decide,
   C10_empty_value_included (fun k => if k = " X " then some "  " else none)
     ["A", " X "] " X " "  " (by decide) (by decide) (by decide)⟩

end LlmCmd
